import Mathlib

set_option maxRecDepth 100000

attribute [local semireducible] Rat.mul Rat.add Rat.sub Rat.inv

/-!
Verification development for the trace assembly and normalization pipeline
(`scripts/phase2/absolute_normalizer.py`, `scripts/phase2/phase1_data_loader.py`).

Conventions of the shallow embedding:
* Python/numpy float64 arithmetic is modelled by exact rational arithmetic (`ℚ`);
  float64 rounding error is far below every tolerance appearing in the claims.
* The two explicit `astype(np.float32)` casts in `AbsoluteNormalizer.normalize`
  and `AbsoluteNormalizer.denormalize` are modelled exactly by `rnd32`:
  round-to-nearest-even at 24 significant binary digits (IEEE-754 binary32
  rounding for values in the normal range; the values handled by the pipeline
  are far from binary32 overflow and subnormal thresholds).
* NaN cells produced by pandas outer joins are modelled as `Option ℚ` with
  `none` standing for NaN.
* Fallible operations (Python exceptions) return `Option`/`Except`.
-/

/-! ### Round-to-nearest-even at 24 bits: the model of `astype(np.float32)` -/

/-- Round a rational to the nearest integer, ties to even. -/
def rhe (x : ℚ) : ℤ :=
  if x - ⌊x⌋ < 1/2 then ⌊x⌋
  else if 1/2 < x - ⌊x⌋ then ⌊x⌋ + 1
  else if ⌊x⌋ % 2 = 0 then ⌊x⌋ else ⌊x⌋ + 1

/-- Halve `q` (raising the exponent) until it is below `2^24`.  Fuel-based so
that the kernel can evaluate it. -/
def shrink : ℕ → ℚ → ℤ → ℚ × ℤ
  | 0, q, e => (q, e)
  | f + 1, q, e => if q < 2 ^ 24 then (q, e) else shrink f (q / 2) (e + 1)

/-- Double `q` (lowering the exponent) until it reaches `2^23`. -/
def grow : ℕ → ℚ → ℤ → ℚ × ℤ
  | 0, q, e => (q, e)
  | f + 1, q, e => if 2 ^ 23 ≤ q then (q, e) else grow f (q * 2) (e - 1)

/-- Scaled mantissa (in `[2^23, 2^24)`) and exponent of a positive rational. -/
def mantExp (q : ℚ) : ℚ × ℤ :=
  let p := shrink q.num.natAbs q 0
  grow (23 + p.1.den) p.1 p.2

/-- Round a positive rational to 24 significant bits, ties to even. -/
def rnd32pos (q : ℚ) : ℚ :=
  let p := mantExp q
  ((rhe p.1 : ℤ) : ℚ) * (2 : ℚ) ^ p.2

/-- The binary32 rounding function applied by `astype(np.float32)` (restricted
to the normal range, which covers every value this pipeline produces). -/
def rnd32 (q : ℚ) : ℚ :=
  if q = 0 then 0 else if 0 < q then rnd32pos q else -rnd32pos (-q)

theorem rhe_abs_le (x : ℚ) : |(rhe x : ℚ) - x| ≤ 1/2 := by
  have h0 : ((⌊x⌋ : ℤ) : ℚ) ≤ x := Int.floor_le x
  have h1 : x < (⌊x⌋ : ℤ) + 1 := Int.lt_floor_add_one x
  unfold rhe
  split_ifs with ha hb hc <;> rw [abs_le] <;> push_cast <;> constructor <;> linarith

theorem rhe_nonneg {x : ℚ} (hx : 0 ≤ x) : 0 ≤ rhe x := by
  have h : 0 ≤ ⌊x⌋ := Int.floor_nonneg.2 hx
  unfold rhe
  split_ifs <;> omega

theorem shrink_mul (f : ℕ) : ∀ (q : ℚ) (e : ℤ),
    (shrink f q e).1 * 2 ^ (shrink f q e).2 = q * 2 ^ e := by
  induction f with
  | zero => intro q e; rfl
  | succ f ih =>
    intro q e
    by_cases h : q < 2 ^ 24
    · simp [shrink, h]
    · rw [shrink, if_neg h, ih]
      rw [zpow_add_one₀ (two_ne_zero)]
      ring

theorem shrink_pos (f : ℕ) : ∀ (q : ℚ) (e : ℤ), 0 < q → 0 < (shrink f q e).1 := by
  induction f with
  | zero => intro q e hq; exact hq
  | succ f ih =>
    intro q e hq
    by_cases h : q < 2 ^ 24
    · simpa [shrink, h] using hq
    · rw [shrink, if_neg h]
      exact ih (q / 2) (e + 1) (by positivity)

theorem shrink_lt (f : ℕ) : ∀ (q : ℚ) (e : ℤ), q < 2 ^ (24 + f) →
    (shrink f q e).1 < 2 ^ 24 := by
  induction f with
  | zero => intro q e hq; simpa using hq
  | succ f ih =>
    intro q e hq
    by_cases h : q < 2 ^ 24
    · simpa [shrink, h] using h
    · rw [shrink, if_neg h]
      refine ih (q / 2) (e + 1) ?_
      rw [div_lt_iff₀ (by norm_num : (0:ℚ) < 2)]
      calc q < 2 ^ (24 + (f + 1)) := hq
        _ = 2 ^ (24 + f) * 2 := by rw [← pow_succ, Nat.add_assoc]

theorem shrink_ge (f : ℕ) : ∀ (q : ℚ) (e : ℤ),
    min q (2 ^ 23) ≤ (shrink f q e).1 := by
  induction f with
  | zero => intro q e; exact min_le_left _ _
  | succ f ih =>
    intro q e
    by_cases h : q < 2 ^ 24
    · simpa [shrink, h] using min_le_left q ((2:ℚ) ^ 23)
    · rw [shrink, if_neg h]
      push_neg at h
      have h2 : (2:ℚ) ^ 23 ≤ q / 2 := by
        rw [le_div_iff₀ (by norm_num : (0:ℚ) < 2)]
        calc (2:ℚ) ^ 23 * 2 = 2 ^ 24 := by norm_num
          _ ≤ q := h
      calc min q (2 ^ 23) ≤ 2 ^ 23 := min_le_right _ _
        _ ≤ min (q / 2) (2 ^ 23) := le_min h2 le_rfl
        _ ≤ _ := ih (q / 2) (e + 1)

theorem grow_mul (f : ℕ) : ∀ (q : ℚ) (e : ℤ),
    (grow f q e).1 * 2 ^ (grow f q e).2 = q * 2 ^ e := by
  induction f with
  | zero => intro q e; rfl
  | succ f ih =>
    intro q e
    by_cases h : (2:ℚ) ^ 23 ≤ q
    · simp [grow, h]
    · rw [grow, if_neg h, ih]
      rw [zpow_sub_one₀ (two_ne_zero)]
      ring

theorem grow_ge (f : ℕ) : ∀ (q : ℚ) (e : ℤ), (2:ℚ) ^ 23 ≤ q * 2 ^ f →
    (2:ℚ) ^ 23 ≤ (grow f q e).1 := by
  induction f with
  | zero => intro q e hq; simpa [grow] using hq
  | succ f ih =>
    intro q e hq
    by_cases h : (2:ℚ) ^ 23 ≤ q
    · simpa [grow, h] using h
    · rw [grow, if_neg h]
      refine ih (q * 2) (e - 1) ?_
      calc (2:ℚ) ^ 23 ≤ q * 2 ^ (f + 1) := hq
        _ = q * 2 * 2 ^ f := by rw [pow_succ]; ring

theorem grow_lt (f : ℕ) : ∀ (q : ℚ) (e : ℤ), q < 2 ^ 24 →
    (grow f q e).1 < 2 ^ 24 := by
  induction f with
  | zero => intro q e hq; exact hq
  | succ f ih =>
    intro q e hq
    by_cases h : (2:ℚ) ^ 23 ≤ q
    · simpa [grow, h] using hq
    · rw [grow, if_neg h]
      push_neg at h
      refine ih (q * 2) (e - 1) ?_
      calc q * 2 < 2 ^ 23 * 2 := by linarith
        _ = 2 ^ 24 := by norm_num

theorem mantExp_spec (q : ℚ) (hq : 0 < q) :
    (mantExp q).1 * 2 ^ (mantExp q).2 = q ∧
    (2:ℚ) ^ 23 ≤ (mantExp q).1 ∧ (mantExp q).1 < 2 ^ 24 := by
  have hnum : 0 < q.num := Rat.num_pos.2 hq
  have hqle : q ≤ (q.num : ℚ) := by
    conv_lhs => rw [← Rat.num_div_den q]
    have hden : (1:ℚ) ≤ (q.den : ℚ) := by exact_mod_cast q.den_pos
    calc (q.num : ℚ) / q.den ≤ (q.num : ℚ) / 1 := by
          apply div_le_div_of_nonneg_left _ one_pos hden
          exact_mod_cast hnum.le
      _ = (q.num : ℚ) := by ring
  have hqlt : q < 2 ^ (24 + q.num.natAbs) := by
    have h1 : (q.num : ℚ) < 2 ^ q.num.natAbs := by
      have := Nat.lt_two_pow q.num.natAbs
      calc (q.num : ℚ) = (q.num.natAbs : ℚ) := by
            rw [Int.cast_natAbs, abs_of_pos (by exact_mod_cast hnum)]
        _ < 2 ^ q.num.natAbs := by exact_mod_cast this
    have h2 : (2:ℚ) ^ q.num.natAbs ≤ 2 ^ (24 + q.num.natAbs) := by
      apply pow_le_pow_right₀ one_le_two
      omega
    linarith
  set p := shrink q.num.natAbs q 0 with hp
  have hmul : p.1 * 2 ^ p.2 = q := by
    have := shrink_mul q.num.natAbs q 0
    simpa using this
  have hpos : 0 < p.1 := shrink_pos _ q 0 hq
  have hlt : p.1 < 2 ^ 24 := shrink_lt _ q 0 hqlt
  have hlow : (2:ℚ) ^ 23 ≤ p.1 * 2 ^ (23 + p.1.den) := by
    have hnum1 : (1:ℚ) ≤ (p.1.num : ℚ) := by
      have := Rat.num_pos.2 hpos
      exact_mod_cast this
    have hden2 : (p.1.den : ℚ) ≤ 2 ^ p.1.den := by
      exact_mod_cast (Nat.lt_two_pow p.1.den).le
    have hd0 : ((p.1.den : ℚ)) ≠ 0 := by
      have := p.1.den_pos
      positivity
    have hmd : p.1 * (p.1.den : ℚ) = (p.1.num : ℚ) :=
      (eq_div_iff hd0).1 (Rat.num_div_den p.1).symm
    have hone : (1:ℚ) ≤ p.1 * 2 ^ p.1.den := by
      calc (1:ℚ) ≤ (p.1.num : ℚ) := hnum1
        _ = p.1 * (p.1.den : ℚ) := hmd.symm
        _ ≤ p.1 * 2 ^ p.1.den := mul_le_mul_of_nonneg_left hden2 hpos.le
    calc (2:ℚ) ^ 23 = 1 * 2 ^ 23 := (one_mul _).symm
      _ ≤ (p.1 * 2 ^ p.1.den) * 2 ^ 23 :=
          mul_le_mul_of_nonneg_right hone (by positivity)
      _ = p.1 * 2 ^ (23 + p.1.den) := by rw [pow_add]; ring
  refine ⟨?_, grow_ge _ p.1 p.2 hlow, grow_lt _ p.1 p.2 hlt⟩
  rw [mantExp]
  rw [grow_mul]
  exact hmul

theorem rnd32pos_err (q : ℚ) (hq : 0 < q) : |rnd32pos q - q| ≤ q / 2 ^ 24 := by
  obtain ⟨hval, h23, h24⟩ := mantExp_spec q hq
  set m := (mantExp q).1 with hm
  set e := (mantExp q).2 with he
  have hepos : (0:ℚ) < 2 ^ e := by positivity
  have hrnd : rnd32pos q = ((rhe m : ℤ) : ℚ) * 2 ^ e := rfl
  have hdiff : rnd32pos q - q = ((rhe m : ℚ) - m) * 2 ^ e := by
    rw [hrnd, ← hval]; ring
  have h1 : |rnd32pos q - q| = |(rhe m : ℚ) - m| * 2 ^ e := by
    rw [hdiff, abs_mul, abs_of_pos hepos]
  have h2 : |(rhe m : ℚ) - m| ≤ 1/2 := rhe_abs_le m
  have h3 : (2:ℚ) ^ e ≤ q / 2 ^ 23 := by
    have hmpos : (0:ℚ) < m := lt_of_lt_of_le (by positivity) h23
    have : (2:ℚ) ^ e = q / m := by
      rw [eq_div_iff (ne_of_gt hmpos), ← hval]
      ring
    rw [this]
    exact div_le_div_of_nonneg_left hq.le (by positivity) h23
  calc |rnd32pos q - q| = |(rhe m : ℚ) - m| * 2 ^ e := h1
    _ ≤ (1/2) * (q / 2 ^ 23) := by
        apply mul_le_mul h2 h3 hepos.le (by norm_num)
    _ = q / 2 ^ 24 := by ring

theorem rnd32_err {q : ℚ} (hq : 0 ≤ q) : |rnd32 q - q| ≤ q / 2 ^ 24 := by
  rcases eq_or_lt_of_le hq with h | h
  · simp [rnd32, ← h]
  · rw [rnd32, if_neg (ne_of_gt h), if_pos h]
    exact rnd32pos_err q h

theorem rnd32_nonneg {q : ℚ} (hq : 0 ≤ q) : 0 ≤ rnd32 q := by
  rcases eq_or_lt_of_le hq with h | h
  · simp [rnd32, ← h]
  · rw [rnd32, if_neg (ne_of_gt h), if_pos h]
    obtain ⟨hval, h23, _⟩ := mantExp_spec q h
    have hmnn : (0:ℚ) ≤ (mantExp q).1 := le_trans (by positivity) h23
    have : (0:ℤ) ≤ rhe (mantExp q).1 := rhe_nonneg hmnn
    rw [rnd32pos]
    have h2 : (0:ℚ) ≤ 2 ^ (mantExp q).2 := by positivity
    exact mul_nonneg (by exact_mod_cast this) h2

/-! ### `absolute_normalizer.py`: data model -/

/-- `METRIC_NAMES` from `absolute_normalizer.py` (the fixed channel order). -/
def METRIC_NAMES : List String :=
  ["cpu_psi", "cpu_usage", "gpu_memory", "gpu_power", "gpu_temperature",
   "gpu_utilization", "latency_avg", "latency_p50", "latency_p95",
   "latency_p99", "throughput", "total_inferences", "io_psi", "memory_psi",
   "memory_usage"]

/-- `ABSOLUTE_RANGES` from `absolute_normalizer.py`, as an association list in
the source's insertion order.  `10e9` in Python is `10 * 10^9 = 10^10`. -/
def ABSOLUTE_RANGES : List (String × ℚ × ℚ) :=
  [("cpu_psi", 0, 1), ("cpu_usage", 0, 8), ("latency_avg", 0, 5),
   ("latency_p50", 0, 5), ("latency_p95", 0, 8), ("latency_p99", 0, 10),
   ("throughput", 0, 500), ("total_inferences", 0, 100000), ("io_psi", 0, 1),
   ("memory_psi", 0, 1), ("memory_usage", 0, 10000000000),
   ("gpu_memory", 0, 20000), ("gpu_power", 0, 100),
   ("gpu_temperature", 0, 100), ("gpu_utilization", 0, 100)]

/-- Dictionary lookup `ranges[name]`.  Every use in the source supplies a key
that is present (checked concretely in the theorems below); the `(0, 0)`
default stands in for Python's `KeyError`. -/
def rangeLookup (rs : List (String × ℚ × ℚ)) (n : String) : ℚ × ℚ :=
  ((rs.find? (fun e => e.1 == n)).map Prod.snd).getD (0, 0)

/-- Name of channel `j` in `METRIC_NAMES` order. -/
def metricName (j : Fin 15) : String := METRIC_NAMES.getD j.val ""

/-- The sole state of an `AbsoluteNormalizer`: its range table. -/
structure AbsoluteNormalizer where
  ranges : List (String × ℚ × ℚ)

/-- `self.mins[j]` as computed in `AbsoluteNormalizer.__init__`. -/
def AbsoluteNormalizer.minAt (nz : AbsoluteNormalizer) (j : Fin 15) : ℚ :=
  (rangeLookup nz.ranges (metricName j)).1

/-- `self.maxs[j]` as computed in `AbsoluteNormalizer.__init__`. -/
def AbsoluteNormalizer.maxAt (nz : AbsoluteNormalizer) (j : Fin 15) : ℚ :=
  (rangeLookup nz.ranges (metricName j)).2

/-- `self.scales[j] = self.maxs[j] - self.mins[j]`. -/
def AbsoluteNormalizer.scaleAt (nz : AbsoluteNormalizer) (j : Fin 15) : ℚ :=
  nz.maxAt j - nz.minAt j

/-- `np.clip(x, 0.0, 1.0)`. -/
def clip01 (q : ℚ) : ℚ := max 0 (min q 1)

/-- One cell of `AbsoluteNormalizer.normalize`:
`((x - min) / scale)` clipped to `[0, 1]`, then `astype(np.float32)`. -/
def AbsoluteNormalizer.normalizeAt (nz : AbsoluteNormalizer) (j : Fin 15)
    (x : ℚ) : ℚ :=
  rnd32 (clip01 ((x - nz.minAt j) / nz.scaleAt j))

/-- One cell of `AbsoluteNormalizer.denormalize`:
`y * scale + min`, then `astype(np.float32)`. -/
def AbsoluteNormalizer.denormalizeAt (nz : AbsoluteNormalizer) (j : Fin 15)
    (y : ℚ) : ℚ :=
  rnd32 (y * nz.scaleAt j + nz.minAt j)

/-- `AbsoluteNormalizer.normalize` on a whole trace (rows of 15 channels);
numpy broadcasting applies the per-channel map elementwise. -/
def AbsoluteNormalizer.normalize (nz : AbsoluteNormalizer)
    (trace : List (Fin 15 → ℚ)) : List (Fin 15 → ℚ) :=
  trace.map fun row j => nz.normalizeAt j (row j)

/-- `AbsoluteNormalizer.denormalize` on a whole trace. -/
def AbsoluteNormalizer.denormalize (nz : AbsoluteNormalizer)
    (trace : List (Fin 15 → ℚ)) : List (Fin 15 → ℚ) :=
  trace.map fun row j => nz.denormalizeAt j (row j)

/-- `AbsoluteNormalizer()` — the default instance backed by `ABSOLUTE_RANGES`. -/
def defaultNormalizer : AbsoluteNormalizer := ⟨ABSOLUTE_RANGES⟩

/-- All 15 per-channel minima of the default range table are `0`. -/
theorem defaultNormalizer_minAt_eq_zero (j : Fin 15) :
    defaultNormalizer.minAt j = 0 := by
  fin_cases j <;> decide

/-- All 15 per-channel scales of the default range table are positive. -/
theorem defaultNormalizer_scaleAt_pos (j : Fin 15) :
    0 < defaultNormalizer.scaleAt j := by
  fin_cases j <;> decide

/-- Each default per-channel maximum is exactly representable in binary32:
rounding it is the identity. -/
theorem rnd32_maxAt (j : Fin 15) :
    rnd32 (defaultNormalizer.maxAt j) = defaultNormalizer.maxAt j := by
  fin_cases j <;> decide

theorem rnd32_one : rnd32 1 = 1 := by decide

theorem rnd32_zero : rnd32 0 = 0 := by decide

theorem clip01_of_mem {q : ℚ} (h0 : 0 ≤ q) (h1 : q ≤ 1) : clip01 q = q := by
  unfold clip01
  rw [min_eq_left h1, max_eq_right h0]

theorem clip01_of_gt {q : ℚ} (h : 1 < q) : clip01 q = 1 := by
  unfold clip01
  rw [min_eq_right h.le, max_eq_right (by norm_num : (0:ℚ) ≤ 1)]

theorem defaultNormalizer_maxAt_eq (j : Fin 15) :
    defaultNormalizer.maxAt j = defaultNormalizer.scaleAt j := by
  rw [AbsoluteNormalizer.scaleAt, defaultNormalizer_minAt_eq_zero, sub_zero]

/-- C3: for every channel `j` of the default range table, an input equal to
`max_j` normalizes to exactly `1`, an input equal to `min_j` normalizes to
exactly `0`, and any input strictly above `max_j` normalizes to exactly `1`
and then denormalizes back to `max_j` (lossy by design).  Stated for the
per-cell maps that `normalize`/`denormalize` apply elementwise. -/
theorem C3_clamping_boundary (j : Fin 15) (x : ℚ)
    (hx : defaultNormalizer.maxAt j < x) :
    defaultNormalizer.normalizeAt j (defaultNormalizer.maxAt j) = 1 ∧
    defaultNormalizer.normalizeAt j (defaultNormalizer.minAt j) = 0 ∧
    defaultNormalizer.normalizeAt j x = 1 ∧
    defaultNormalizer.denormalizeAt j (defaultNormalizer.normalizeAt j x) =
      defaultNormalizer.maxAt j := by
  have hs : 0 < defaultNormalizer.scaleAt j := defaultNormalizer_scaleAt_pos j
  have hm : defaultNormalizer.minAt j = 0 := defaultNormalizer_minAt_eq_zero j
  have hmax : defaultNormalizer.maxAt j = defaultNormalizer.scaleAt j :=
    defaultNormalizer_maxAt_eq j
  have hnx : defaultNormalizer.normalizeAt j x = 1 := by
    rw [AbsoluteNormalizer.normalizeAt, hm, sub_zero]
    have hq : 1 < x / defaultNormalizer.scaleAt j := by
      rw [lt_div_iff₀ hs, one_mul, ← hmax]
      exact hx
    rw [clip01_of_gt hq]
    exact rnd32_one
  refine ⟨?_, ?_, hnx, ?_⟩
  · rw [AbsoluteNormalizer.normalizeAt, hm, sub_zero, hmax,
      div_self (ne_of_gt hs), clip01_of_mem (by norm_num) (by norm_num)]
    exact rnd32_one
  · rw [AbsoluteNormalizer.normalizeAt, hm, sub_zero, zero_div,
      clip01_of_mem (by norm_num) (by norm_num)]
    exact rnd32_zero
  · rw [hnx, AbsoluteNormalizer.denormalizeAt, hm, add_zero, one_mul, ← hmax]
    exact rnd32_maxAt j

/-- Witness for `C3_clamping_boundary` at channel 2 (`gpu_memory`, max 20000)
and input 20001. -/
theorem C3_clamping_boundary_witness :
    defaultNormalizer.maxAt ⟨2, by norm_num⟩ < 20001 ∧
    (defaultNormalizer.normalizeAt ⟨2, by norm_num⟩
        (defaultNormalizer.maxAt ⟨2, by norm_num⟩) = 1 ∧
      defaultNormalizer.normalizeAt ⟨2, by norm_num⟩
        (defaultNormalizer.minAt ⟨2, by norm_num⟩) = 0 ∧
      defaultNormalizer.normalizeAt ⟨2, by norm_num⟩ 20001 = 1 ∧
      defaultNormalizer.denormalizeAt ⟨2, by norm_num⟩
        (defaultNormalizer.normalizeAt ⟨2, by norm_num⟩ 20001) =
        defaultNormalizer.maxAt ⟨2, by norm_num⟩) :=
  ⟨by decide, C3_clamping_boundary ⟨2, by norm_num⟩ 20001 (by decide)⟩

/-- The example row of `demonstrate_normalization` restricted to the claim:
`memory_usage` (channel 14) carries `1643693933.0` bytes, other channels `0`. -/
def exRow : Fin 15 → ℚ := fun j => if j.val = 14 then 1643693933 else 0

/-- C1 counterexample: the trace `[exRow]` lies inside the default RangeTable
bounds in every channel, yet `denormalize(normalize(x))` differs from `x` by
more than `1e-3` in the `memory_usage` channel (the float32 casts lose the
low bits of a value scaled to `1e10`; the exact error is 19.0). -/
theorem C1_roundtrip_1e3_counterexample :
    ((List.finRange 15).all fun j =>
      decide (defaultNormalizer.minAt j ≤ exRow j) &&
        decide (exRow j ≤ defaultNormalizer.maxAt j)) = true ∧
    1/1000 <
      |((defaultNormalizer.denormalize
          (defaultNormalizer.normalize [exRow])).getD 0 exRow) ⟨14, by norm_num⟩
        - exRow ⟨14, by norm_num⟩| :=
  ⟨by decide, by decide⟩

/-- C1 (amended): for in-range values the round trip recovers `x` only up to
binary32 rounding: the absolute error is bounded by `scale_j / 2^22`, which
exceeds `1e-3` for channels scaled to `1e10` such as `memory_usage`.  In exact
arithmetic (without the `astype(np.float32)` casts) the map is the exact
algebraic inverse, but the code's casts make the `1e-3` bound false. -/
theorem C1_roundtrip_error_bound (j : Fin 15) (x : ℚ)
    (h1 : defaultNormalizer.minAt j ≤ x) (h2 : x ≤ defaultNormalizer.maxAt j) :
    |defaultNormalizer.denormalizeAt j (defaultNormalizer.normalizeAt j x) - x|
      ≤ defaultNormalizer.scaleAt j / 2 ^ 22 := by
  have hs : 0 < defaultNormalizer.scaleAt j := defaultNormalizer_scaleAt_pos j
  have hm : defaultNormalizer.minAt j = 0 := defaultNormalizer_minAt_eq_zero j
  set s := defaultNormalizer.scaleAt j with hsdef
  have hx0 : 0 ≤ x := by rw [hm] at h1; exact h1
  have hxs : x ≤ s := by rw [defaultNormalizer_maxAt_eq j] at h2; exact h2
  set q := x / s with hq
  have hq0 : 0 ≤ q := div_nonneg hx0 hs.le
  have hq1 : q ≤ 1 := by
    rw [hq, div_le_one hs]
    exact hxs
  have hqs : q * s = x := div_mul_cancel₀ x (ne_of_gt hs)
  have hnorm : defaultNormalizer.normalizeAt j x = rnd32 q := by
    rw [AbsoluteNormalizer.normalizeAt, hm, sub_zero, clip01_of_mem hq0 hq1]
  set y := rnd32 q with hy
  have hyq : |y - q| ≤ q / 2 ^ 24 := rnd32_err hq0
  have hy0 : 0 ≤ y := rnd32_nonneg hq0
  have hy2 : y ≤ 2 := by
    have h := (abs_le.1 hyq).2
    have : q / 2 ^ 24 ≤ 1 / 2 ^ 24 :=
      div_le_div_of_nonneg_right hq1 (by norm_num)
    nlinarith
  have hdenorm : defaultNormalizer.denormalizeAt j
      (defaultNormalizer.normalizeAt j x) = rnd32 (y * s) := by
    rw [hnorm, AbsoluteNormalizer.denormalizeAt, hm, add_zero]
  have hws : 0 ≤ y * s := mul_nonneg hy0 hs.le
  have hz : |rnd32 (y * s) - y * s| ≤ (y * s) / 2 ^ 24 := rnd32_err hws
  have hz2 : (y * s) / 2 ^ 24 ≤ 2 * s / 2 ^ 24 := by
    apply div_le_div_of_nonneg_right _ (by norm_num)
    exact mul_le_mul_of_nonneg_right hy2 hs.le
  have hwx : |y * s - x| ≤ s / 2 ^ 24 := by
    have : y * s - x = (y - q) * s := by rw [← hqs]; ring
    rw [this, abs_mul, abs_of_pos hs]
    have h1 : |y - q| ≤ 1 / 2 ^ 24 := by
      refine le_trans hyq ?_
      exact div_le_div_of_nonneg_right hq1 (by norm_num)
    calc |y - q| * s ≤ (1 / 2 ^ 24) * s :=
          mul_le_mul_of_nonneg_right h1 hs.le
      _ = s / 2 ^ 24 := by ring
  rw [hdenorm]
  calc |rnd32 (y * s) - x|
      ≤ |rnd32 (y * s) - y * s| + |y * s - x| := abs_sub_le _ _ _
    _ ≤ 2 * s / 2 ^ 24 + s / 2 ^ 24 := add_le_add (le_trans hz hz2) hwx
    _ ≤ s / 2 ^ 22 := by ring_nf; linarith

/-- Witness for `C1_roundtrip_error_bound` at `memory_usage = 1643693933.0`. -/
theorem C1_roundtrip_error_bound_witness :
    defaultNormalizer.minAt ⟨14, by norm_num⟩ ≤ 1643693933 ∧
    (1643693933 : ℚ) ≤ defaultNormalizer.maxAt ⟨14, by norm_num⟩ ∧
    |defaultNormalizer.denormalizeAt ⟨14, by norm_num⟩
        (defaultNormalizer.normalizeAt ⟨14, by norm_num⟩ 1643693933)
      - 1643693933|
      ≤ defaultNormalizer.scaleAt ⟨14, by norm_num⟩ / 2 ^ 22 :=
  ⟨by decide, by decide,
    C1_roundtrip_error_bound ⟨14, by norm_num⟩ 1643693933 (by decide) (by decide)⟩

/-! ### `create_normalizer_from_data` -/

/-- `all_traces[:, :, idx].flatten()`: all observed values of channel `j`
across every trace and timestep. -/
def columnValues (traces : List (List (Fin 15 → ℚ))) (j : Fin 15) : List ℚ :=
  (traces.map fun tr => tr.map fun row => row j).flatten

/-- `values.min()` on a nonempty array (`0` as junk value on the empty list,
on which numpy raises instead). -/
def listMin : List ℚ → ℚ
  | [] => 0
  | a :: t => t.foldl min a

/-- `np.percentile(values, p)` with the default linear-interpolation method:
sort ascending, take `h = p/100 * (n-1)`, and interpolate linearly between
the neighbouring order statistics. -/
def percentileNp (l : List ℚ) (p : ℚ) : ℚ :=
  let s := List.insertionSort (fun a b : ℚ => a ≤ b) l
  let h := p * ((s.length : ℚ) - 1) / 100
  let i := (⌊h⌋).toNat
  let lo := s.getD i 0
  let hi := s.getD (i + 1) lo
  lo + (h - (i : ℚ)) * (hi - lo)

/-- One iteration of the range-derivation loop in
`create_normalizer_from_data`: `min = max(0.0, values.min())`,
`max = np.percentile(values, percentile) * min_range_factor`, widened to
`min + 1.0` when the width falls below `1e-6`. -/
def rangeEntry (traces : List (List (Fin 15 → ℚ)))
    (percentile min_range_factor : ℚ) (j : Fin 15) : String × ℚ × ℚ :=
  let values := columnValues traces j
  let min_val := max 0 (listMin values)
  let max_val := percentileNp values percentile * min_range_factor
  (metricName j,
    (min_val, if max_val - min_val < 1/1000000 then min_val + 1 else max_val))

/-- `create_normalizer_from_data(pod_traces, percentile, min_range_factor)`
(Python defaults: `percentile = 99.5`, `min_range_factor = 1.2`). -/
def create_normalizer_from_data (pod_traces : List (List (Fin 15 → ℚ)))
    (percentile min_range_factor : ℚ) : AbsoluteNormalizer :=
  ⟨(List.finRange 15).map (rangeEntry pod_traces percentile min_range_factor)⟩

theorem create_ranges_lookup (traces : List (List (Fin 15 → ℚ)))
    (p f : ℚ) (j : Fin 15) :
    rangeLookup (create_normalizer_from_data traces p f).ranges (metricName j)
      = (rangeEntry traces p f j).2 := by
  have hfr : List.finRange 15 =
      [⟨0, by norm_num⟩, ⟨1, by norm_num⟩, ⟨2, by norm_num⟩, ⟨3, by norm_num⟩,
       ⟨4, by norm_num⟩, ⟨5, by norm_num⟩, ⟨6, by norm_num⟩, ⟨7, by norm_num⟩,
       ⟨8, by norm_num⟩, ⟨9, by norm_num⟩, ⟨10, by norm_num⟩,
       ⟨11, by norm_num⟩, ⟨12, by norm_num⟩, ⟨13, by norm_num⟩,
       ⟨14, by norm_num⟩] := by decide
  fin_cases j <;>
    simp [create_normalizer_from_data, rangeLookup, hfr, List.find?,
      rangeEntry, metricName, METRIC_NAMES]

/-- C9: for a non-empty reference dataset, the derived RangeTable assigns to
each metric `min = max(0, observed minimum)` and
`max = percentile(observed, p) * margin`, widened to `min + 1` whenever the
resulting width falls below `1e-6`. -/
theorem C9_derived_ranges (traces : List (List (Fin 15 → ℚ))) (p f : ℚ)
    (j : Fin 15) (hne : columnValues traces j ≠ []) :
    (rangeLookup (create_normalizer_from_data traces p f).ranges
        (metricName j)).1
      = max 0 (listMin (columnValues traces j)) ∧
    (rangeLookup (create_normalizer_from_data traces p f).ranges
        (metricName j)).2
      = (if percentileNp (columnValues traces j) p * f
            - max 0 (listMin (columnValues traces j)) < 1/1000000
         then max 0 (listMin (columnValues traces j)) + 1
         else percentileNp (columnValues traces j) p * f) := by
  rw [create_ranges_lookup]
  constructor <;> simp [rangeEntry]

/-- Witness for `C9_derived_ranges`: a single one-timestep trace with every
channel equal to 5, at the Python defaults `p = 99.5`, `margin = 1.2`. -/
theorem C9_derived_ranges_witness :
    columnValues [[fun _ => 5]] ⟨0, by norm_num⟩ ≠ [] ∧
    ((rangeLookup (create_normalizer_from_data [[fun _ => 5]] (995/10)
          (6/5)).ranges (metricName ⟨0, by norm_num⟩)).1
        = max 0 (listMin (columnValues [[fun _ => 5]] ⟨0, by norm_num⟩)) ∧
      (rangeLookup (create_normalizer_from_data [[fun _ => 5]] (995/10)
          (6/5)).ranges (metricName ⟨0, by norm_num⟩)).2
        = (if percentileNp (columnValues [[fun _ => 5]] ⟨0, by norm_num⟩)
              (995/10) * (6/5)
              - max 0 (listMin (columnValues [[fun _ => 5]] ⟨0, by norm_num⟩))
              < 1/1000000
           then max 0 (listMin (columnValues [[fun _ => 5]] ⟨0, by norm_num⟩))
              + 1
           else percentileNp (columnValues [[fun _ => 5]] ⟨0, by norm_num⟩)
              (995/10) * (6/5))) :=
  ⟨by decide, C9_derived_ranges [[fun _ => 5]] (995/10) (6/5) ⟨0, by norm_num⟩
    (by decide)⟩

/-- C10: every per-channel scale `max_j - min_j` is strictly positive, both
for the default `ABSOLUTE_RANGES` table and for any table produced by
`create_normalizer_from_data` on a non-empty dataset, so the division in
`normalize` is never a division by zero. -/
theorem C10_scales_positive :
    (∀ j : Fin 15, 0 < defaultNormalizer.scaleAt j) ∧
    ∀ (traces : List (List (Fin 15 → ℚ))) (p f : ℚ) (j : Fin 15),
      columnValues traces j ≠ [] →
      0 < (create_normalizer_from_data traces p f).scaleAt j := by
  refine ⟨defaultNormalizer_scaleAt_pos, ?_⟩
  intro traces p f j hne
  have hl := create_ranges_lookup traces p f j
  rw [AbsoluteNormalizer.scaleAt, AbsoluteNormalizer.maxAt,
    AbsoluteNormalizer.minAt, hl]
  simp only [rangeEntry]
  split_ifs with h
  · norm_num
  · push_neg at h
    linarith

/-- Witness for `C10_scales_positive` (second conjunct) on a concrete
one-trace dataset. -/
theorem C10_scales_positive_witness :
    columnValues [[fun _ => 5]] ⟨3, by norm_num⟩ ≠ [] ∧
    0 < (create_normalizer_from_data [[fun _ => 5]] (995/10)
        (6/5)).scaleAt ⟨3, by norm_num⟩ :=
  ⟨by decide, C10_scales_positive.2 [[fun _ => 5]] (995/10) (6/5)
    ⟨3, by norm_num⟩ (by decide)⟩

/-! ### `phase1_data_loader.py`: group-name parsing (`extract_experiment_info`) -/

/-- Start code points of the Unicode `Nd` (decimal digit) blocks (Unicode
14.0, the database of the Python interpreter running this repository).
Every `Nd` character sits in a run of ten consecutive code points carrying
the decimal values 0 to 9.  Python's `\d` on `str` patterns matches
exactly these characters, and `int()` reads their decimal values. -/
def ndRangeStarts : List ℕ :=
  [48, 1632, 1776, 1984, 2406, 2534, 2662, 2790, 2918, 3046, 3174, 3302,
   3430, 3558, 3664, 3792, 3872, 4160, 4240, 6112, 6160, 6470, 6608, 6784,
   6800, 6992, 7088, 7232, 7248, 42528, 43216, 43264, 43472, 43504, 43600,
   44016, 65296, 66720, 68912, 69734, 69872, 69942, 70096, 70384, 70736,
   70864, 71248, 71360, 71472, 71904, 72016, 72784, 73040, 73120, 92768,
   92864, 93008, 120782, 120792, 120802, 120812, 120822, 123200, 123632,
   125264, 130032]

/-- The decimal value of a Unicode decimal digit (`Nd`), `none` for every
other character. -/
def pyDigitVal (c : Char) : Option ℕ :=
  ndRangeStarts.findSome? fun s =>
    if s ≤ c.toNat ∧ c.toNat < s + 10 then some (c.toNat - s) else none

/-- Python's `\d` on a `str` pattern: any Unicode decimal digit. -/
def isPyDigit (c : Char) : Bool := (pyDigitVal c).isSome

/-- `int(...)` on a run of decimal digit characters (Unicode digits
included, as in Python). -/
def digitsVal (l : List Char) : ℕ :=
  l.foldl (fun n c => 10 * n + (pyDigitVal c).getD 0) 0

/-- Can the regex `(.+)_r(\d+)` place the `_r` at position `j`?  The `.+`
group must cover `s[0..j)` and `.` matches any character except `'\n'`;
then `s[j] = '_'`, `s[j+1] = 'r'`, and a Unicode decimal digit must stand
at `s[j+2]`. -/
def okAt (s : List Char) (j : ℕ) : Bool :=
  (s.take j).all (fun c => c != '\n') &&
  ((s.drop j).take 2 == ['_', 'r']) &&
  (match s.drop (j + 2) with
   | c :: _ => isPyDigit c
   | [] => false)

/-- Backtracking of the greedy `.+`: the match point is the largest viable
`j ≥ 1` (the set of viable positions is bounded by the first newline, and
`okAt` already rules the later ones out, so the top-down search is exactly
the engine's backtracking). -/
def searchJ (s : List Char) : ℕ → Option ℕ
  | 0 => none
  | j + 1 => if okAt s (j + 1) then some (j + 1) else searchJ s j

/-- `extract_experiment_info`: `re.match(r'(.+)_r(\d+)', exp_dir_name)`.
Group 1 is the greedy newline-free prefix before the last viable `_r`
(`.` does not match `'\n'`); group 2 is the maximal run of Unicode decimal
digits after it (`\d` is Unicode-aware on `str`); trailing characters are
ignored because `re.match` does not anchor at the end.  `none` models the
`ValueError`. -/
def extract_experiment_info (s : String) : Option (String × ℕ) :=
  match searchJ s.data s.data.length with
  | none => none
  | some j =>
    some (String.mk (s.data.take j),
      digitsVal ((s.data.drop (j + 2)).takeWhile isPyDigit))

theorem searchJ_isSome_iff (s : List Char) :
    ∀ n, (searchJ s n).isSome = true ↔
      ∃ j, 1 ≤ j ∧ j ≤ n ∧ okAt s j = true := by
  intro n
  induction n with
  | zero =>
    simp only [searchJ, Option.isSome_none]
    constructor
    · intro h; cases h
    · rintro ⟨j, h1, h2, _⟩; omega
  | succ n ih =>
    by_cases h : okAt s (n + 1) = true
    · simp only [searchJ, h, if_true, Option.isSome_some]
      constructor
      · intro _; exact ⟨n + 1, by omega, le_rfl, h⟩
      · intro _; trivial
    · rw [searchJ, if_neg (by simpa using h), ih]
      constructor
      · rintro ⟨j, h1, h2, h3⟩; exact ⟨j, h1, by omega, h3⟩
      · rintro ⟨j, h1, h2, h3⟩
        refine ⟨j, h1, ?_, h3⟩
        rcases Nat.lt_or_ge j (n + 1) with hj | hj
        · omega
        · exfalso
          have : j = n + 1 := by omega
          rw [this] at h3
          exact h h3

theorem okAt_decomp {s : List Char} {j : ℕ} (hok : okAt s j = true) :
    s = s.take j ++ '_' :: 'r' :: s.drop (j + 2) ∧
    (∀ ch ∈ s.take j, ch ≠ '\n') ∧
    ∃ c rest, s.drop (j + 2) = c :: rest ∧ isPyDigit c = true := by
  rw [okAt, Bool.and_eq_true, Bool.and_eq_true] at hok
  obtain ⟨⟨h0, h1⟩, h2⟩ := hok
  have hnl : ∀ ch ∈ s.take j, ch ≠ '\n' := by
    intro ch hch
    have h := List.all_eq_true.1 h0 ch hch
    simpa using h
  have h1' : (s.drop j).take 2 = ['_', 'r'] := by simpa using h1
  have hdd : (s.drop j).drop 2 = s.drop (j + 2) := by
    rw [List.drop_drop]
    try rw [Nat.add_comm]
  have hdj : s.drop j = '_' :: 'r' :: s.drop (j + 2) := by
    conv_lhs => rw [← List.take_append_drop 2 (s.drop j)]
    rw [h1', hdd]
    rfl
  refine ⟨?_, hnl, ?_⟩
  · conv_lhs => rw [← List.take_append_drop j s, hdj]
  · cases hc : s.drop (j + 2) with
    | nil => rw [hc] at h2; simp at h2
    | cons c rest =>
      rw [hc] at h2
      exact ⟨c, rest, rfl, h2⟩

theorem okAt_of_decomp {s w : List Char} {c : Char} {rest : List Char}
    (heq : s = w ++ '_' :: 'r' :: c :: rest) (hnl : ∀ ch ∈ w, ch ≠ '\n')
    (hc : isPyDigit c = true) :
    okAt s w.length = true := by
  have htk : s.take w.length = w := by
    rw [heq, List.take_left]
  have hdj : s.drop w.length = '_' :: 'r' :: c :: rest := by
    rw [heq, List.drop_left]
  have hdj2 : s.drop (w.length + 2) = c :: rest := by
    have h2 : s.drop (w.length + 2) = (s.drop w.length).drop 2 := by
      rw [List.drop_drop]
      try rw [Nat.add_comm]
    rw [h2, hdj]
    try rfl
  rw [okAt, htk, hdj, hdj2]
  rw [Bool.and_eq_true, Bool.and_eq_true]
  refine ⟨⟨?_, rfl⟩, hc⟩
  rw [List.all_eq_true]
  intro ch hch
  simpa using hnl ch hch

/-- C7 (amended): parsing a group identifier succeeds exactly when the
string contains a decomposition
`<nonempty newline-free prefix> ++ "_r" ++ <Unicode decimal digit> ++
<anything>`.  `.` does not match `'\n'`, `\d` matches any Unicode decimal
digit, and the unanchored `re.match` accepts trailing characters after the
digit run and places no lower bound on the parsed cardinality. -/
theorem C7_parse_success_iff (s : String) :
    (extract_experiment_info s).isSome = true ↔
      ∃ w c rest, s.data = w ++ '_' :: 'r' :: c :: rest ∧ w ≠ [] ∧
        (∀ ch ∈ w, ch ≠ '\n') ∧ isPyDigit c = true := by
  have hiso : (extract_experiment_info s).isSome
      = (searchJ s.data s.data.length).isSome := by
    unfold extract_experiment_info
    cases searchJ s.data s.data.length <;> rfl
  rw [hiso, searchJ_isSome_iff]
  constructor
  · rintro ⟨j, hj1, hjn, hok⟩
    obtain ⟨hsplit, hnl, c, rest, hdrop, hc⟩ := okAt_decomp hok
    refine ⟨s.data.take j, c, rest, ?_, ?_, hnl, hc⟩
    · rw [← hdrop]; exact hsplit
    · have hjlen : j < s.data.length := by
        by_contra hge
        push_neg at hge
        have hnil2 : s.data.drop (j + 2) = [] :=
          List.drop_eq_nil_of_le (by omega)
        rw [hnil2] at hdrop
        cases hdrop
      intro hnil
      have hl0 := congrArg List.length hnil
      rw [List.length_take] at hl0
      simp only [List.length_nil] at hl0
      omega
  · rintro ⟨w, c, rest, heq, hw, hnl, hc⟩
    refine ⟨w.length, ?_, ?_, okAt_of_decomp heq hnl hc⟩
    · cases w with
      | nil => exact absurd rfl hw
      | cons a t => simp
    · have hlen := congrArg List.length heq
      rw [List.length_append] at hlen
      simp only [List.length_cons] at hlen
      omega

/-- Witness for `C7_parse_success_iff` on `"resnet50_r3"`. -/
theorem C7_parse_success_iff_witness :
    (extract_experiment_info "resnet50_r3").isSome = true :=
  (C7_parse_success_iff "resnet50_r3").2
    ⟨['r', 'e', 's', 'n', 'e', 't', '5', '0'], '3', [], by decide, by decide,
      by decide, by decide⟩

/-- Faithfulness check: `.` cannot cross a newline, so on `"a\nb_r3"` the
regex finds no match and the code raises — as does the model. -/
theorem extract_experiment_info_newline :
    extract_experiment_info "a\nb_r3" = none := by decide

/-- Faithfulness check: `\d` matches Unicode decimal digits, so the code
parses `"x_r٣"` (U+0663, Arabic-Indic three) to `("x", 3)` — as does the
model. -/
theorem extract_experiment_info_unicode_digit :
    extract_experiment_info "x_r٣" = some ("x", 3) := by decide

/-- Decidable transcription of "the string matches the form
`<workload>_r<cardinality>` with a nonempty workload and cardinality >= 1":
some split point yields a nonempty prefix, then `_r`, then a nonempty
all-digit tail of value at least 1. -/
def groupFormGE1 (s : List Char) : Bool :=
  (List.range (s.length + 1)).any fun i =>
    decide (s.take i ≠ []) &&
    ((s.drop i).take 2 == ['_', 'r']) &&
    (decide ((s.drop i).drop 2 ≠ []) &&
      ((s.drop i).drop 2).all Char.isDigit &&
      decide (1 ≤ digitsVal ((s.drop i).drop 2)))

/-- `groupFormGE1` is complete: when it answers `false` there really is no
decomposition of the claimed form. -/
theorem groupFormGE1_complete {s : List Char} (h : groupFormGE1 s = false) :
    ∀ w d, ¬(s = w ++ '_' :: 'r' :: d ∧ w ≠ [] ∧ d ≠ [] ∧
      (∀ c ∈ d, c.isDigit = true) ∧ 1 ≤ digitsVal d) := by
  rintro w d ⟨heq, hw, hd, hdig, hval⟩
  have htake : s.take w.length = w := by rw [heq, List.take_left]
  have hdrop : s.drop w.length = '_' :: 'r' :: d := by rw [heq, List.drop_left]
  have htrue : groupFormGE1 s = true := by
    rw [groupFormGE1, List.any_eq_true]
    refine ⟨w.length, ?_, ?_⟩
    · rw [List.mem_range]
      have hlen := congrArg List.length heq
      rw [List.length_append] at hlen
      simp only [List.length_cons] at hlen
      omega
    · rw [htake, hdrop]
      simp [hw, hd, hval, List.all_eq_true]
      exact hdig
  rw [h] at htrue
  cases htrue

/-- C7 counterexample: `"x_r0"` is not of the form
`<workload>_r<cardinality>` with cardinality `≥ 1` — its only `_r` is
followed by the digit run `"0"` — yet parsing succeeds and returns
`("x", 0)`, a cardinality below 1, instead of failing.
(`groupFormGE1_complete` connects the checker to the quantified form.) -/
theorem C7_cardinality_zero_counterexample :
    extract_experiment_info "x_r0" = some ("x", 0) ∧
    groupFormGE1 "x_r0".data = false :=
  ⟨by decide, by decide⟩

/-! ### `find_metric_file`: the metric locator -/

/-- Error taxonomy of `find_metric_file`: `FileNotFoundError` for zero
matches, `ValueError` for several. -/
inductive LocateErr where
  | notFound : LocateErr
  | ambiguous : LocateErr
deriving DecidableEq

/-- Does a file name match the glob pattern `*<metric>*.csv`, i.e. can it be
decomposed as `a ++ metric ++ b ++ ".csv"`?  Equivalently: it ends in `.csv`
and the metric name occurs in the part before that suffix. -/
def globMatches (metric fname : String) : Bool :=
  decide (4 ≤ fname.data.length) &&
    (fname.data.drop (fname.data.length - 4) == ['.', 'c', 's', 'v']) &&
    decide (metric.data <:+: fname.data.take (fname.data.length - 4))

/-- `find_metric_file`: glob the experiment directory (given as its list of
file names, in directory order) for `*<metric>*.csv`; fail on zero or
several matches, return the unique match otherwise. -/
def find_metric_file (files : List String) (metric : String) :
    Except LocateErr String :=
  match files.filter (globMatches metric) with
  | [] => Except.error LocateErr.notFound
  | [f] => Except.ok f
  | _ :: _ :: _ => Except.error LocateErr.ambiguous

/-- C8: the locator fails with `NotFound` on zero matches, fails with
`Ambiguous` on several (never silently picking one), and returns `f`
exactly when `f` is the unique match. -/
theorem C8_metric_locator (files : List String) (metric : String) :
    ((files.filter (globMatches metric)).length = 0 →
      find_metric_file files metric = Except.error LocateErr.notFound) ∧
    (2 ≤ (files.filter (globMatches metric)).length →
      find_metric_file files metric = Except.error LocateErr.ambiguous) ∧
    (∀ f, find_metric_file files metric = Except.ok f ↔
      files.filter (globMatches metric) = [f]) := by
  rcases hm : files.filter (globMatches metric) with _ | ⟨a, _ | ⟨b, t⟩⟩ <;>
    refine ⟨?_, ?_, ?_⟩ <;>
    simp [find_metric_file, hm]

/-- Witness for `C8_metric_locator`: among two files only one matches
`*cpu_usage*.csv`, and the locator returns it. -/
theorem C8_metric_locator_witness :
    ["exp_cpu_usage_1.csv", "exp_gpu_power_1.csv"].filter
        (globMatches "cpu_usage") = ["exp_cpu_usage_1.csv"] ∧
    find_metric_file ["exp_cpu_usage_1.csv", "exp_gpu_power_1.csv"]
      "cpu_usage" = Except.ok "exp_cpu_usage_1.csv" :=
  ⟨by decide,
    ((C8_metric_locator ["exp_cpu_usage_1.csv", "exp_gpu_power_1.csv"]
      "cpu_usage").2.2 "exp_cpu_usage_1.csv").2 (by decide)⟩

/-! ### `merge_experiment_data`, step 3: broadcasting shared metrics

Steps 1 and 2 of `merge_experiment_data` outer-join the 6 per-pod series
into a per-pod wide table and the 9 system series into a shared wide table.
The claims concern step 3 (`merged.merge(system_merged, on='timestamp',
how='left')`) and step 4 (`sort_values(['timestamp', 'pod'])`), so the
embedding takes the two wide tables as inputs.  Cells are `Option ℚ`
(`none` = NaN). -/

/-- One row of the per-pod wide table: timestamp, pod id, and the 6 per-pod
metric cells. -/
structure PRow where
  ts : ℤ
  pod : String
  pvals : List (Option ℚ)
deriving DecidableEq

/-- One row of the shared wide table: timestamp and the 9 system metric
cells. -/
structure SRow where
  ts : ℤ
  svals : List (Option ℚ)
deriving DecidableEq

/-- One row of the merged table. -/
structure MRow where
  ts : ℤ
  pod : String
  pvals : List (Option ℚ)
  svals : List (Option ℚ)
deriving DecidableEq

/-- The merged rows a single per-pod row produces under pandas left-merge on
`timestamp`: one output row per matching shared row, or a single NaN-padded
row when no shared row matches. -/
def joinRow (r : List SRow) (a : PRow) : List MRow :=
  match r.filter (fun b => b.ts == a.ts) with
  | [] => [⟨a.ts, a.pod, a.pvals, List.replicate 9 none⟩]
  | ms => ms.map fun b => ⟨a.ts, a.pod, a.pvals, b.svals⟩

/-- Pandas `merged.merge(system_merged, on='timestamp', how='left')`. -/
def leftJoinShared (l : List PRow) (r : List SRow) : List MRow :=
  l.flatMap (joinRow r)

/-- Code-point lexicographic string comparison (Python's `<=` on `str`,
which is what pandas uses to sort the object-dtype `pod` column). -/
def strLeB : List Char → List Char → Bool
  | [], _ => true
  | _ :: _, [] => false
  | a :: s, b :: t =>
    if a.toNat < b.toNat then true
    else if b.toNat < a.toNat then false
    else strLeB s t

/-- `x <= y` on Python strings. -/
def strLe (x y : String) : Prop := strLeB x.data y.data = true

instance : ∀ x y, Decidable (strLe x y) := fun x y => by
  unfold strLe
  infer_instance

theorem strLeB_total : ∀ a b, strLeB a b = true ∨ strLeB b a = true := by
  intro a
  induction a with
  | nil => intro b; exact Or.inl rfl
  | cons x s ih =>
    intro b
    cases b with
    | nil => exact Or.inr rfl
    | cons y t =>
      rcases Nat.lt_trichotomy x.toNat y.toNat with h | h | h
      · left; simp [strLeB, h]
      · rcases ih t with hl | hr
        · left; simp [strLeB, h, hl]
        · right; simp [strLeB, h.symm, hr]
      · right; simp [strLeB, h]

theorem strLeB_trans : ∀ a b c, strLeB a b = true → strLeB b c = true →
    strLeB a c = true := by
  intro a
  induction a with
  | nil => intro b c _ _; rfl
  | cons x s ih =>
    intro b c hab hbc
    cases b with
    | nil => simp [strLeB] at hab
    | cons y t =>
      cases c with
      | nil => simp [strLeB] at hbc
      | cons z u =>
        rcases Nat.lt_trichotomy x.toNat y.toNat with hxy | hxy | hxy
        · rcases Nat.lt_trichotomy y.toNat z.toNat with hyz | hyz | hyz
          · have hxz : x.toNat < z.toNat := by omega
            simp [strLeB, hxz]
          · have hxz : x.toNat < z.toNat := by omega
            simp [strLeB, hxz]
          · rw [strLeB, if_neg (by omega), if_pos hyz] at hbc
            cases hbc
        · rcases Nat.lt_trichotomy y.toNat z.toNat with hyz | hyz | hyz
          · have hxz : x.toNat < z.toNat := by omega
            simp [strLeB, hxz]
          · rw [strLeB, if_neg (by omega), if_neg (by omega)] at hab
            rw [strLeB, if_neg (by omega), if_neg (by omega)] at hbc
            rw [strLeB, if_neg (by omega), if_neg (by omega)]
            exact ih t u hab hbc
          · rw [strLeB, if_neg (by omega), if_pos hyz] at hbc
            cases hbc
        · rw [strLeB, if_neg (by omega), if_pos hxy] at hab
          cases hab

/-- Sort key of step 4: ascending `(timestamp, pod)`. -/
def mergeRowLe (a b : MRow) : Prop :=
  a.ts < b.ts ∨ (a.ts = b.ts ∧ strLe a.pod b.pod)

instance : DecidableRel mergeRowLe := fun a b => by
  unfold mergeRowLe
  infer_instance

instance : IsTotal MRow mergeRowLe := by
  constructor
  intro a b
  rcases lt_trichotomy a.ts b.ts with h | h | h
  · exact Or.inl (Or.inl h)
  · rcases strLeB_total a.pod.data b.pod.data with hp | hp
    · exact Or.inl (Or.inr ⟨h, hp⟩)
    · exact Or.inr (Or.inr ⟨h.symm, hp⟩)
  · exact Or.inr (Or.inl h)

instance : IsTrans MRow mergeRowLe := by
  constructor
  intro a b c hab hbc
  rcases hab with h1 | ⟨h1, hp1⟩ <;> rcases hbc with h2 | ⟨h2, hp2⟩
  · exact Or.inl (h1.trans h2)
  · exact Or.inl (h2 ▸ h1)
  · exact Or.inl (h1 ▸ h2)
  · exact Or.inr ⟨h1.trans h2, strLeB_trans _ _ _ hp1 hp2⟩

/-- Steps 3 and 4 of `merge_experiment_data`: left-join the shared wide
table onto the per-pod wide table on `timestamp`, then sort ascending by
`(timestamp, pod)`. -/
def merge_experiment_data (l : List PRow) (r : List SRow) : List MRow :=
  List.insertionSort mergeRowLe (leftJoinShared l r)

/-- The per-pod part of a merged row. -/
def projPE (m : MRow) : ℤ × String × List (Option ℚ) :=
  (m.ts, m.pod, m.pvals)

theorem filter_ts_single {r : List SRow} (hnd : (r.map SRow.ts).Nodup)
    (t : ℤ) :
    r.filter (fun b => b.ts == t) = [] ∨
    ∃ b, r.filter (fun b => b.ts == t) = [b] := by
  induction r with
  | nil => exact Or.inl rfl
  | cons b r ih =>
    rw [List.map_cons, List.nodup_cons] at hnd
    obtain ⟨hb, hr⟩ := hnd
    by_cases hbt : b.ts = t
    · right
      refine ⟨b, ?_⟩
      rw [List.filter_cons_of_pos (by simpa using hbt)]
      have : r.filter (fun b => b.ts == t) = [] := by
        rw [List.filter_eq_nil_iff]
        intro c hc
        simp only [beq_iff_eq]
        intro hct
        exact hb (by rw [hbt, ← hct]; exact List.mem_map_of_mem _ hc)
      rw [this]
    · rw [List.filter_cons_of_neg (by simpa using hbt)]
      exact ih hr

theorem joinRow_map_projPE {r : List SRow} (hnd : (r.map SRow.ts).Nodup)
    (a : PRow) :
    (joinRow r a).map projPE = [(a.ts, a.pod, a.pvals)] := by
  unfold joinRow
  rcases filter_ts_single hnd a.ts with h | ⟨b, h⟩ <;> rw [h] <;> rfl

theorem leftJoinShared_map_projPE {l : List PRow} {r : List SRow}
    (hnd : (r.map SRow.ts).Nodup) :
    (leftJoinShared l r).map projPE
      = l.map (fun a => (a.ts, a.pod, a.pvals)) := by
  induction l with
  | nil => rfl
  | cons a l ih =>
    rw [leftJoinShared, List.flatMap_cons, List.map_append,
      joinRow_map_projPE hnd a]
    rw [leftJoinShared] at ih
    rw [ih]
    rfl

/-- C4: with the shared wide table keyed uniquely by timestamp, the merged
table's rows are exactly the per-pod rows (shared-only timestamps are
dropped, per-pod rows are neither dropped nor duplicated), and the result
is sorted ascending by `(timestamp, pod)`. -/
theorem C4_merge_rows_exact_and_sorted (l : List PRow) (r : List SRow)
    (hnd : (r.map SRow.ts).Nodup) :
    ((merge_experiment_data l r).map projPE).Perm
      (l.map (fun a => (a.ts, a.pod, a.pvals))) ∧
    (merge_experiment_data l r).Sorted mergeRowLe := by
  constructor
  · have h1 : (merge_experiment_data l r).Perm (leftJoinShared l r) :=
      List.perm_insertionSort _ _
    have h2 := h1.map projPE
    rw [leftJoinShared_map_projPE hnd] at h2
    exact h2
  · exact List.sorted_insertionSort _ _

/-- All-present per-pod cells used in concrete witnesses. -/
def pvW : List (Option ℚ) := List.replicate 6 (some 1)

/-- All-present shared cells used in concrete witnesses. -/
def svW : List (Option ℚ) := List.replicate 9 (some 2)

def l4w : List PRow := [⟨1, "p2", pvW⟩, ⟨0, "p1", pvW⟩]

def r4w : List SRow := [⟨0, svW⟩, ⟨5, svW⟩]

/-- Witness for `C4_merge_rows_exact_and_sorted`: two per-pod rows, one
shared-only timestamp (5) that is dropped. -/
theorem C4_merge_rows_exact_and_sorted_witness :
    ((merge_experiment_data l4w r4w).map projPE).Perm
      (l4w.map (fun a => (a.ts, a.pod, a.pvals))) ∧
    (merge_experiment_data l4w r4w).Sorted mergeRowLe :=
  C4_merge_rows_exact_and_sorted l4w r4w (by decide)

/-- The shared cells pandas assigns at timestamp `t`: those of the unique
matching shared row, or NaN if none matches. -/
def lookupShared (r : List SRow) (t : ℤ) : List (Option ℚ) :=
  match r.filter (fun b => b.ts == t) with
  | [] => List.replicate 9 none
  | b :: _ => b.svals

theorem joinRow_svals {r : List SRow} (hnd : (r.map SRow.ts).Nodup)
    {a : PRow} {m : MRow} (hm : m ∈ joinRow r a) :
    m.ts = a.ts ∧ m.svals = lookupShared r a.ts := by
  unfold joinRow at hm
  unfold lookupShared
  rcases filter_ts_single hnd a.ts with h | ⟨b, h⟩ <;> rw [h] at hm ⊢ <;>
    simp only [List.map_cons, List.map_nil, List.mem_singleton] at hm <;>
    rw [hm]
  · exact ⟨rfl, rfl⟩
  · exact ⟨rfl, rfl⟩

theorem mem_leftJoinShared_svals {l : List PRow} {r : List SRow}
    (hnd : (r.map SRow.ts).Nodup) {m : MRow}
    (hm : m ∈ leftJoinShared l r) :
    m.svals = lookupShared r m.ts := by
  induction l with
  | nil => cases hm
  | cons a l ih =>
    rw [leftJoinShared, List.flatMap_cons, List.mem_append] at hm
    rcases hm with hm | hm
    · obtain ⟨hts, hsv⟩ := joinRow_svals hnd hm
      rw [hsv, hts]
    · exact ih hm

/-- Sort key used inside `extract_pod_traces`:
`pod_data.sort_values('timestamp')`. -/
def tsRowLe (a b : MRow) : Prop := a.ts ≤ b.ts

instance : DecidableRel tsRowLe := fun a b => by
  unfold tsRowLe
  infer_instance

/-- The rows `extract_pod_traces` selects and orders for one pod:
`merged_df[merged_df['pod'] == pod_id]` sorted by timestamp. -/
def podRows (rows : List MRow) (p : String) : List MRow :=
  List.insertionSort tsRowLe (rows.filter (fun m => m.pod == p))

/-- C5: with the shared wide table keyed uniquely by timestamp, any two rows
selected for (possibly different) pods that share a timestamp carry
identical shared-metric cells — the shared observation is broadcast
identically to every entity present at that timestamp. -/
theorem C5_shared_broadcast (l : List PRow) (r : List SRow)
    (hnd : (r.map SRow.ts).Nodup) (p1 p2 : String) (m1 m2 : MRow)
    (h1 : m1 ∈ podRows (merge_experiment_data l r) p1)
    (h2 : m2 ∈ podRows (merge_experiment_data l r) p2)
    (hts : m1.ts = m2.ts) :
    m1.svals = m2.svals := by
  have hmem : ∀ {p : String} {m : MRow},
      m ∈ podRows (merge_experiment_data l r) p → m ∈ leftJoinShared l r := by
    intro p m hm
    rw [podRows, List.mem_insertionSort, List.mem_filter] at hm
    have h := hm.1
    rwa [merge_experiment_data, List.mem_insertionSort] at h
  have e1 := mem_leftJoinShared_svals hnd (hmem h1)
  have e2 := mem_leftJoinShared_svals hnd (hmem h2)
  rw [e1, e2, hts]

def l5w : List PRow := [⟨0, "p1", pvW⟩, ⟨0, "p2", pvW⟩]

def r5w : List SRow := [⟨0, svW⟩]

def m5a : MRow := ⟨0, "p1", pvW, svW⟩

def m5b : MRow := ⟨0, "p2", pvW, svW⟩

/-- Witness for `C5_shared_broadcast`: two pods at timestamp 0, one shared
row, identical broadcast cells. -/
theorem C5_shared_broadcast_witness :
    m5a ∈ podRows (merge_experiment_data l5w r5w) "p1" ∧
    m5b ∈ podRows (merge_experiment_data l5w r5w) "p2" ∧
    m5a.svals = m5b.svals :=
  ⟨by decide, by decide,
    C5_shared_broadcast l5w r5w (by decide) "p1" "p2" m5a m5b
      (by decide) (by decide) (by decide)⟩

/-! ### `extract_pod_traces` and `load_phase1_data` -/

/-- `METRIC_ORDER` from `phase1_data_loader.py` (the loader's 15 columns). -/
def METRIC_ORDER : List String :=
  ["cpu_psi", "cpu_usage", "gpu_memory", "gpu_power", "gpu_temperature",
   "gpu_utilization", "inference_latency_avg", "inference_latency_p50",
   "inference_latency_p95", "inference_latency_p99", "inference_throughput",
   "inference_total", "io_psi", "memory_psi", "memory_usage"]

/-- One row of a merged experiment DataFrame: timestamp, pod id, and the
cell of each (named) metric column; `none` is a NaN cell. -/
structure TRow where
  ts : ℤ
  pod : String
  vals : String → Option ℚ

/-- A merged experiment DataFrame: the metric columns it carries and its
rows. -/
structure MTable where
  cols : List String
  rows : List TRow

/-- `pd.Series.unique`: the distinct values in first-occurrence order. -/
def uniqueFirstAux : List String → List String → List String
  | [], _ => []
  | a :: t, seen =>
    if a ∈ seen then uniqueFirstAux t seen
    else a :: uniqueFirstAux t (a :: seen)

def uniqueFirst (l : List String) : List String := uniqueFirstAux l []

/-- The Python `for` loop with a mid-loop `raise`: apply `f` left to right,
aborting the whole traversal on the first error. -/
def mapExcept {α β : Type} (f : α → Except String β) :
    List α → Except String (List β)
  | [] => Except.ok []
  | a :: t =>
    match f a with
    | Except.error e => Except.error e
    | Except.ok b =>
      match mapExcept f t with
      | Except.error e => Except.error e
      | Except.ok bs => Except.ok (b :: bs)

/-- Per-trace metadata assembled by `extract_pod_traces`.  `n_timesteps` and
`n_metrics` are read off the stacked array's shape. -/
structure PodMeta where
  workload : String
  replica_count : ℕ
  pod_id : String
  experiment_dir : String
  n_timesteps : ℕ
  n_metrics : ℕ
deriving DecidableEq

/-- Per-pod sort inside `extract_pod_traces`:
`pod_data.sort_values('timestamp')` on the row list. -/
def tRowLe (a b : TRow) : Prop := a.ts ≤ b.ts

instance : DecidableRel tRowLe := fun a b => by
  unfold tRowLe
  infer_instance

/-- The body of the per-pod loop of `extract_pod_traces`: select and
time-sort the pod's rows, then stack the 15 metric columns; raise if a
column is absent. -/
def extractPod (t : MTable) (exp_dir_name workload : String)
    (replica_count : ℕ) (p : String) :
    Except String (List (List (Option ℚ)) × PodMeta) :=
  match mapExcept (fun m =>
      if m ∈ t.cols then
        Except.ok ((List.insertionSort tRowLe
          (t.rows.filter (fun row => row.pod == p))).map fun row =>
            row.vals m)
      else
        Except.error ("Metric '" ++ m ++ "' not found in data for pod "
          ++ p)) METRIC_ORDER with
  | Except.error e => Except.error e
  | Except.ok cols_vals =>
    Except.ok (cols_vals.transpose,
      ⟨workload, replica_count, p, exp_dir_name,
        cols_vals.transpose.length, 15⟩)

/-- `extract_pod_traces(merged_df, exp_dir_name)`: parse the directory name,
then for each pod (in first-occurrence order) run `extractPod`.  A metric
column absent from the DataFrame raises (`IncompleteTrace`); the raise
aborts the whole call, so no pod of the group survives it.  There is no
check on the cell values themselves: `none` (NaN) cells flow into the
output arrays. -/
def extract_pod_traces (t : MTable) (exp_dir_name : String) :
    Except String (List (List (List (Option ℚ)) × PodMeta)) :=
  match extract_experiment_info exp_dir_name with
  | none =>
    Except.error ("Cannot parse experiment directory name: " ++ exp_dir_name)
  | some (workload, replica_count) =>
    mapExcept (extractPod t exp_dir_name workload replica_count)
      (uniqueFirst (t.rows.map TRow.pod))

/-- `load_phase1_data`'s group loop: each group's table is merged and
extracted inside a `try`/`except` that reports the error and `continue`s
with the remaining groups. -/
def load_phase1_data (groups : List (MTable × String)) :
    List (List (List (Option ℚ)) × PodMeta) :=
  match groups with
  | [] => []
  | (t, nm) :: rest =>
    (match extract_pod_traces t nm with
     | Except.ok ts => ts
     | Except.error _ => []) ++ load_phase1_data rest

/-- Does a stacked trace contain a NaN cell? -/
def traceHasNaN (tr : List (List (Option ℚ))) : Bool :=
  tr.any (fun row => row.any (fun v => v.isNone))

/-- Did an extraction call succeed while leaving NaN in some output array? -/
def okWithNaN (res : Except String (List (List (List (Option ℚ)) × PodMeta))) :
    Bool :=
  match res with
  | Except.ok l => l.any (fun pr => traceHasNaN pr.1)
  | Except.error _ => false

/-- Is an extraction result a success? -/
def isOkE {α : Type} (r : Except String α) : Bool :=
  match r with
  | Except.ok _ => true
  | Except.error _ => false

theorem mapExcept_ok_of_forall {α β : Type} (f : α → Except String β)
    (l : List α) (h : ∀ a ∈ l, ∃ b, f a = Except.ok b) :
    ∃ bs, mapExcept f l = Except.ok bs := by
  induction l with
  | nil => exact ⟨[], rfl⟩
  | cons a t ih =>
    obtain ⟨b, hb⟩ := h a (List.mem_cons_self a t)
    obtain ⟨bs, hbs⟩ := ih (fun x hx => h x (List.mem_cons_of_mem a hx))
    refine ⟨b :: bs, ?_⟩
    rw [mapExcept, hb, hbs]

theorem extractPod_ok (t : MTable) (nm w : String) (c : ℕ) (p : String)
    (hcols : ∀ m ∈ METRIC_ORDER, m ∈ t.cols) :
    ∃ b, extractPod t nm w c p = Except.ok b := by
  unfold extractPod
  obtain ⟨bs, hbs⟩ := mapExcept_ok_of_forall
    (fun m =>
      if m ∈ t.cols then
        Except.ok ((List.insertionSort tRowLe
          (t.rows.filter (fun row => row.pod == p))).map fun row =>
            row.vals m)
      else
        Except.error ("Metric '" ++ m ++ "' not found in data for pod "
          ++ p))
    METRIC_ORDER
    (fun m hm => ⟨_, by simp only []; rw [if_pos (hcols m hm)]⟩)
  rw [hbs]
  exact ⟨_, rfl⟩

/-- The example table for C2: all 15 metric columns are present, one pod,
one timestamp, and the `cpu_psi` cell is NaN (a gap the broadcast could
not fill). -/
def tblC2 : MTable :=
  ⟨METRIC_ORDER,
    [⟨0, "p1", fun m => if m == "cpu_psi" then none else some 1⟩]⟩

/-- C2 counterexample: on a merged table with a NaN cell the extractor does
NOT fail — it returns `ok`, and the returned array still contains the NaN.
There is no post-condition check in `extract_pod_traces`. -/
theorem C2_nan_passthrough_counterexample :
    okWithNaN (extract_pod_traces tblC2 "w_r1") = true := by decide

/-- C2 (amended): the extractor validates only that each of the 15 metric
columns is present; whenever the directory name parses and all columns
exist, extraction succeeds, regardless of NaN cells, which are passed
through into the output arrays unchecked. -/
theorem C2_missing_column_is_only_check (t : MTable) (nm : String)
    (hparse : (extract_experiment_info nm).isSome = true)
    (hcols : ∀ m ∈ METRIC_ORDER, m ∈ t.cols) :
    isOkE (extract_pod_traces t nm) = true := by
  obtain ⟨wc, hwc⟩ := Option.isSome_iff_exists.1 hparse
  obtain ⟨w, c⟩ := wc
  unfold extract_pod_traces
  rw [hwc]
  obtain ⟨bs, hbs⟩ := mapExcept_ok_of_forall
    (extractPod t nm w c) (uniqueFirst (t.rows.map TRow.pod))
    (fun p _ => extractPod_ok t nm w c p hcols)
  show isOkE (mapExcept (extractPod t nm w c)
    (uniqueFirst (List.map TRow.pod t.rows))) = true
  rw [hbs]
  rfl

/-- Witness for `C2_missing_column_is_only_check` on the C2 example table. -/
theorem C2_missing_column_is_only_check_witness :
    (extract_experiment_info "w_r1").isSome = true ∧
    METRIC_ORDER.all (fun m => decide (m ∈ tblC2.cols)) = true ∧
    isOkE (extract_pod_traces tblC2 "w_r1") = true :=
  ⟨by decide, by decide,
    C2_missing_column_is_only_check tblC2 "w_r1" (by decide) (by decide)⟩

/-- All-present cells for C6's example rows. -/
def rowValsOne : String → Option ℚ := fun _ => some 1

/-- The C6 example table: two pods at timestamp 0, but the `memory_usage`
column is missing (only the first 14 of `METRIC_ORDER` are present). -/
def tblC6 : MTable :=
  ⟨METRIC_ORDER.take 14, [⟨0, "p1", rowValsOne⟩, ⟨0, "p2", rowValsOne⟩]⟩

/-- A fully well-formed one-pod table used as the sibling group in C6's
witness. -/
def tblOK : MTable := ⟨METRIC_ORDER, [⟨0, "q1", rowValsOne⟩]⟩

/-- C6 counterexample: an `IncompleteTrace` for one entity is NOT confined
to that entity.  The table has two pods, the failure is raised while
processing the first (`p1`), and the whole group's extraction aborts with a
single error — the sibling `p2` yields no trace and no individual report. -/
theorem C6_group_abort_counterexample :
    (uniqueFirst (tblC6.rows.map TRow.pod)).length = 2 ∧
    extract_pod_traces tblC6 "w_r2"
      = Except.error "Metric 'memory_usage' not found in data for pod p1" ∧
    load_phase1_data [(tblC6, "w_r2")] = [] := by
  refine ⟨by decide, by rfl, by rfl⟩

/-- C6 (amended): an extraction failure is fatal for the whole group — no
trace of any of its entities is produced — but it does not abort other
groups: `load_phase1_data` catches the error per group and continues, so
the output is exactly the concatenation of the surrounding groups'
results. -/
theorem C6_group_error_isolation (pre post : List (MTable × String))
    (t : MTable) (nm e : String)
    (he : extract_pod_traces t nm = Except.error e) :
    load_phase1_data (pre ++ (t, nm) :: post)
      = load_phase1_data pre ++ load_phase1_data post := by
  induction pre with
  | nil => simp [load_phase1_data, he]
  | cons g rest ih =>
    obtain ⟨gt, gn⟩ := g
    have h1 : load_phase1_data (((gt, gn) :: rest) ++ (t, nm) :: post)
        = (match extract_pod_traces gt gn with
           | Except.ok ts => ts
           | Except.error _ => []) ++ load_phase1_data (rest ++ (t, nm) :: post) := rfl
    have h2 : load_phase1_data ((gt, gn) :: rest)
        = (match extract_pod_traces gt gn with
           | Except.ok ts => ts
           | Except.error _ => []) ++ load_phase1_data rest := rfl
    rw [h1, ih, h2, List.append_assoc]

/-- Witness for `C6_group_error_isolation`: the failing C6 group followed by
a healthy group; the healthy group's traces survive. -/
theorem C6_group_error_isolation_witness :
    extract_pod_traces tblC6 "w_r2"
      = Except.error "Metric 'memory_usage' not found in data for pod p1" ∧
    load_phase1_data [(tblC6, "w_r2"), (tblOK, "v_r1")]
      = load_phase1_data [] ++ load_phase1_data [(tblOK, "v_r1")] :=
  ⟨by rfl,
    C6_group_error_isolation [] [(tblOK, "v_r1")] tblC6 "w_r2"
      "Metric 'memory_usage' not found in data for pod p1" (by rfl)⟩
